import Mathlib

/-!
Verification of the `tx-padding` message padding scheme.

The scheme pads a message of length `pos` held at the front of a caller
buffer: it relocates the message to offset `1 + pad_len`, fills bytes
`[1, 1 + pad_len)` with bytes drawn from a randomness source, writes a
header byte at index 0 whose low bits encode `pad_len - 2`, and zero-fills
the trailing `block_size - 1` bytes.  `unpad` reverses the operation.

Bytes are modelled as natural numbers (values < 256 where it matters,
with explicit `% 256` at the points the Rust code casts to `u8`).  The
randomness source is modelled as a finite stream of bytes: a draw of `k`
bytes consumes `k` bytes from the front and fails when fewer are
available, mirroring the fallible `try_fill_bytes` call.
-/

/-- `pad_len` as computed by `pad`:
`((-(pos as isize) - 2).rem_euclid(block_size as isize)) as usize + 2`.
Lean's `%` on `Int` is Euclidean remainder, matching `rem_euclid`. -/
def padLen (N pos : Nat) : Nat :=
  ((-(pos : Int) - 2) % (N : Int)).toNat + 2

/-- The padded total length `be = block_size * ((pos + 1) / block_size + 2)`
computed by `pad`. -/
def totalLen (N pos : Nat) : Nat :=
  N * ((pos + 1) / N + 2)

/-- Bitwise complement on a byte: `!x` for `x : u8` (the Rust code applies
it to `(block_size - 1) as u8`). -/
def not8 (x : Nat) : Nat :=
  255 - x % 256

/-- The header byte written at index 0:
`!((block_size - 1) as u8) | (pad_len - 2) as u8`. -/
def headerByte (N pos : Nat) : Nat :=
  Nat.lor (not8 (N - 1)) ((padLen N pos - 2) % 256)

/-- In-place write of `data` into `buf` starting at offset `d`; models both
`copy_within` (with `data` a copy of the source range) and slice fills.
Faithful to the Rust operations whenever `d + data.length ≤ buf.length`,
which holds at every call site below once the length validation passed. -/
def writeRange (buf : List Nat) (d : Nat) (data : List Nat) : List Nat :=
  buf.take d ++ data ++ buf.drop (d + data.length)

/-- Outcome of a `pad` call: the returned padded sub-slice (`none` on
`PadError`), the final state of the caller's buffer, and the remaining
randomness stream. -/
structure PadResult where
  res : Option (List Nat)
  buf : List Nat
  rand : List Nat
deriving DecidableEq, Repr

/-- Shallow embedding of `TxPadding::<N>::pad(buf, pos, block_size)`.
Steps, in source order: block-size equality check, buffer length check,
`copy_within(..pos, 1 + pad_len)`, fallible randomness fill of
`buf[1..1 + pad_len]`, header byte write, trailing zero fill, and the
return of `buf[..be]`. -/
def pad (N : Nat) (buf : List Nat) (pos bs : Nat) (rand : List Nat) : PadResult :=
  if bs ≠ N then ⟨none, buf, rand⟩
  else
    let be := N * ((pos + 1) / N + 2)
    if buf.length < be then ⟨none, buf, rand⟩
    else
      let pad_zero := N - 1
      let pad_len := padLen N pos
      let buf1 := writeRange buf (1 + pad_len) (buf.take pos)
      if rand.length < pad_len then ⟨none, buf1, rand⟩
      else
        let buf2 := writeRange buf1 1 (rand.take pad_len)
        let buf3 := writeRange buf2 0 [Nat.lor (not8 (N - 1)) ((pad_len - 2) % 256)]
        let buf4 := writeRange buf3 (be - pad_zero) (List.replicate pad_zero 0)
        ⟨some (buf4.take be), buf4, rand.drop pad_len⟩

/-- Shallow embedding of `TxPadding::<N>::unpad(data)`: emptiness check,
`pad_len` decoding from the low bits of byte 0, length check, trailing
zero check, and the sub-slice `data[1 + pad_len .. l - pad_zero]`. -/
def unpad (N : Nat) (data : List Nat) : Option (List Nat) :=
  if data.length = 0 then none
  else
    let l := data.length
    let pad_zero := N - 1
    let pad_len := Nat.land (data.headD 0) (pad_zero % 256) + 2
    if l < pad_len + N then none
    else if (data.drop (l - pad_zero)).any (fun v => v != 0) then none
    else some ((data.take (l - pad_zero)).drop (1 + pad_len))

/-- The `pad_len` value `unpad` decodes from byte 0 of its input, written
with the mask `block_size - 1` (for a valid block size `N ≤ 256` this is
exactly the code's `data[0] & (pad_zero as u8)`). -/
def decodedPadLen (N : Nat) (data : List Nat) : Nat :=
  Nat.land (data.headD 0) (N - 1) + 2

/-- Result of running `unpad` with every slice access guarded: `panic`
records an out-of-bounds access or an arithmetic underflow that would
abort a Rust execution, `err` an `UnpadError`, `ok` a successful return. -/
inductive UnpadOutcome where
  | panic : UnpadOutcome
  | err : UnpadOutcome
  | ok : List Nat → UnpadOutcome
deriving DecidableEq, Repr

/-- `unpad` with every indexing and slicing operation made explicit:
`data[0]` is guarded by a bounds check, and each slice `data[a..b]`
requires `a ≤ b ≤ data.length`; `l - pad_zero` on `usize` requires
`pad_zero ≤ l`.  A violated guard yields `panic`. -/
def unpadChecked (N : Nat) (data : List Nat) : UnpadOutcome :=
  if data.length = 0 then .err
  else
    let l := data.length
    let pad_zero := N - 1
    match data.get? 0 with
    | none => .panic
    | some b0 =>
      let pad_len := Nat.land b0 (pad_zero % 256) + 2
      if l < pad_len + N then .err
      else if pad_zero > l then .panic
      else if (data.drop (l - pad_zero)).any (fun v => v != 0) then .err
      else if 1 + pad_len > l - pad_zero then .panic
      else .ok ((data.take (l - pad_zero)).drop (1 + pad_len))

/-! ### Arithmetic facts about `padLen` and `totalLen` -/

lemma padLen_ge (N pos : Nat) : 2 ≤ padLen N pos := by
  unfold padLen; exact Nat.le_add_left 2 _

lemma padLen_le (N pos : Nat) (hN : 0 < N) : padLen N pos ≤ N + 1 := by
  unfold padLen
  have hlt : (-(pos : Int) - 2) % (N : Int) < (N : Int) :=
    Int.emod_lt_of_pos _ (by exact_mod_cast hN)
  have hge : (0 : Int) ≤ (-(pos : Int) - 2) % (N : Int) :=
    Int.emod_nonneg _ (by exact_mod_cast hN.ne')
  omega

lemma padLen_eq_ite (N pos : Nat) (hN : 0 < N) :
    padLen N pos = (if (pos + 2) % N = 0 then 0 else N - (pos + 2) % N) + 2 := by
  unfold padLen
  have hqr : N * ((pos + 2) / N) + (pos + 2) % N = pos + 2 := Nat.div_add_mod (pos + 2) N
  have hrlt : (pos + 2) % N < N := Nat.mod_lt _ hN
  have hcast : ((pos : Int) + 2) = (N : Int) * (((pos + 2) / N : Nat) : Int)
      + (((pos + 2) % N : Nat) : Int) := by exact_mod_cast hqr.symm
  have h1 : (-(pos : Int) - 2)
      = (-((((pos + 2) % N : Nat)) : Int)) + (N : Int) * (-(((pos + 2) / N : Nat) : Int)) := by
    linear_combination -hcast
  rw [h1, Int.add_mul_emod_self_left]
  have h2 : (-((((pos + 2) % N : Nat)) : Int)) % (N : Int)
      = ((N : Int) - (((pos + 2) % N : Nat) : Int)) % (N : Int) := by
    have h3 : ((N : Int) - (((pos + 2) % N : Nat) : Int))
        = (-((((pos + 2) % N : Nat)) : Int)) + (N : Int) * 1 := by ring
    rw [h3, Int.add_mul_emod_self_left]
  rw [h2]
  by_cases h0 : (pos + 2) % N = 0
  · simp [h0]
  · have hmod : ((N : Int) - (((pos + 2) % N : Nat) : Int)) % (N : Int)
        = (N : Int) - (((pos + 2) % N : Nat) : Int) :=
      Int.emod_eq_of_lt (by omega) (by omega)
    rw [hmod, if_neg h0]
    omega

lemma totalLen_eq (N pos : Nat) (hN : 0 < N) :
    totalLen N pos = padLen N pos + pos + N := by
  unfold totalLen
  rw [padLen_eq_ite N pos hN]
  have hqr : N * ((pos + 2) / N) + (pos + 2) % N = pos + 2 := Nat.div_add_mod (pos + 2) N
  have hrlt : (pos + 2) % N < N := Nat.mod_lt _ hN
  by_cases h0 : (pos + 2) % N = 0
  · obtain ⟨q', hq'⟩ : ∃ q', (pos + 2) / N = q' + 1 := by
      rcases Nat.eq_zero_or_pos ((pos + 2) / N) with h | h
      · rw [h] at hqr; omega
      · exact ⟨(pos + 2) / N - 1, by omega⟩
    rw [hq', Nat.mul_succ] at hqr
    have hdiv : (pos + 1) / N = q' := by
      have hdec : pos + 1 = (N - 1) + N * q' := by omega
      rw [hdec, Nat.add_mul_div_left _ _ hN, Nat.div_eq_of_lt (by omega)]
      omega
    rw [hdiv, if_pos h0, Nat.mul_add]
    omega
  · have hdiv : (pos + 1) / N = (pos + 2) / N := by
      have hdec : pos + 1 = ((pos + 2) % N - 1) + N * ((pos + 2) / N) := by omega
      rw [hdec, Nat.add_mul_div_left _ _ hN, Nat.div_eq_of_lt (by omega)]
      omega
    rw [hdiv, if_neg h0, Nat.mul_add]
    omega

lemma totalLen_lower (N pos : Nat) (hN : 0 < N) :
    pos + N + 2 ≤ totalLen N pos := by
  have h1 := totalLen_eq N pos hN
  have h2 := padLen_ge N pos
  omega

/-! ### Shape of a successful `pad` call -/

lemma pad_shape (N pos : Nat) (buf rand : List Nat) (hN : 2 ≤ N)
    (hbuf : totalLen N pos ≤ buf.length)
    (hrand : padLen N pos ≤ rand.length) :
    pad N buf pos N rand =
      ⟨some (headerByte N pos ::
          (rand.take (padLen N pos) ++ buf.take pos ++ List.replicate (N - 1) 0)),
       (headerByte N pos ::
          (rand.take (padLen N pos) ++ buf.take pos ++ List.replicate (N - 1) 0))
          ++ buf.drop (totalLen N pos),
       rand.drop (padLen N pos)⟩ := by
  have hbe : totalLen N pos = padLen N pos + pos + N := totalLen_eq N pos (by omega)
  have hpl2 : 2 ≤ padLen N pos := padLen_ge N pos
  have hplN : padLen N pos ≤ N + 1 := padLen_le N pos (by omega)
  have hlenbuf : padLen N pos + pos + N ≤ buf.length := by rw [← hbe]; exact hbuf
  have hbuf' : N * ((pos + 1) / N + 2) ≤ buf.length := hbuf
  have hA : (buf.take (1 + padLen N pos)).length = 1 + padLen N pos := by
    rw [List.length_take]; omega
  have hM : (buf.take pos).length = pos := by
    rw [List.length_take]; omega
  have hR : (rand.take (padLen N pos)).length = padLen N pos := by
    rw [List.length_take]; omega
  have h1 : ¬ (N ≠ N) := fun h => h rfl
  have h2 : ¬ (buf.length < N * ((pos + 1) / N + 2)) := not_lt.mpr hbuf'
  have h3 : ¬ (rand.length < padLen N pos) := not_lt.mpr hrand
  have e1 : writeRange buf (1 + padLen N pos) (buf.take pos)
      = buf.take (1 + padLen N pos)
        ++ (buf.take pos ++ buf.drop (1 + padLen N pos + pos)) := by
    unfold writeRange
    rw [hM, List.append_assoc]
  have ht1 : (1 : Nat) ≤ (buf.take (1 + padLen N pos)).length := by rw [hA]; omega
  have hmin : (1 : Nat) ⊓ (1 + padLen N pos) = 1 := by omega
  have e2 : writeRange (buf.take (1 + padLen N pos)
        ++ (buf.take pos ++ buf.drop (1 + padLen N pos + pos))) 1 (rand.take (padLen N pos))
      = (buf.take 1 ++ rand.take (padLen N pos))
          ++ (buf.take pos ++ buf.drop (1 + padLen N pos + pos)) := by
    unfold writeRange
    rw [hR, List.take_append_of_le_length ht1, List.take_take, hmin, List.drop_left' hA]
  have h1len : (buf.take 1).length = 1 := by
    rw [List.length_take]; omega
  have e3 : writeRange ((buf.take 1 ++ rand.take (padLen N pos))
        ++ (buf.take pos ++ buf.drop (1 + padLen N pos + pos))) 0
        [Nat.lor (not8 (N - 1)) ((padLen N pos - 2) % 256)]
      = (headerByte N pos :: rand.take (padLen N pos))
          ++ (buf.take pos ++ buf.drop (1 + padLen N pos + pos)) := by
    unfold writeRange headerByte
    simp only [List.take_zero, List.nil_append, List.length_cons, List.length_nil,
      Nat.zero_add, List.singleton_append, List.append_assoc]
    rw [List.drop_one]
    have htl : (buf.take 1 ++ (rand.take (padLen N pos)
          ++ (buf.take pos ++ buf.drop (1 + padLen N pos + pos)))).tail
        = rand.take (padLen N pos) ++ (buf.take pos ++ buf.drop (1 + padLen N pos + pos)) := by
      rw [← List.drop_one, List.drop_left' h1len]
    rw [htl, List.cons_append]
  have hP : ((headerByte N pos :: rand.take (padLen N pos)) ++ buf.take pos).length
      = totalLen N pos - (N - 1) := by
    simp only [List.length_append, List.length_cons, hR, hM]
    omega
  have hPD : (headerByte N pos :: rand.take (padLen N pos))
        ++ (buf.take pos ++ buf.drop (1 + padLen N pos + pos))
      = ((headerByte N pos :: rand.take (padLen N pos)) ++ buf.take pos)
        ++ buf.drop (1 + padLen N pos + pos) := by
    rw [List.append_assoc]
  have hidx : totalLen N pos - (N - 1) + (N - 1)
      = (((headerByte N pos :: rand.take (padLen N pos)) ++ buf.take pos)).length
        + (N - 1) := by
    rw [hP]
  have hidx2 : 1 + padLen N pos + pos + (N - 1) = totalLen N pos := by omega
  have e4 : writeRange ((headerByte N pos :: rand.take (padLen N pos))
        ++ (buf.take pos ++ buf.drop (1 + padLen N pos + pos)))
        (totalLen N pos - (N - 1)) (List.replicate (N - 1) 0)
      = (((headerByte N pos :: rand.take (padLen N pos)) ++ buf.take pos)
          ++ List.replicate (N - 1) 0) ++ buf.drop (totalLen N pos) := by
    unfold writeRange
    rw [List.length_replicate, hPD, List.take_left' hP, hidx, List.drop_append,
      List.drop_drop, hidx2]
  have hPZ : (((headerByte N pos :: rand.take (padLen N pos)) ++ buf.take pos)
        ++ List.replicate (N - 1) 0).length = totalLen N pos := by
    simp only [List.length_append, List.length_cons, List.length_replicate, hR, hM]
    omega
  unfold pad
  rw [if_neg h1]
  simp only [h2, if_false]
  simp only [h3, if_false]
  rw [show N * ((pos + 1) / N + 2) = totalLen N pos from rfl]
  rw [e1, e2, e3, e4, List.take_left' hPZ]
  simp [List.append_assoc]

/-! ### Header byte decoding -/

set_option maxRecDepth 4096 in
lemma land_header (N x : Nat) (hpow : ∃ k, N = 2 ^ k) (hgt : 1 < N) (hle : N ≤ 256)
    (hx : x < N) :
    Nat.land (Nat.lor (not8 (N - 1)) (x % 256)) ((N - 1) % 256) = x := by
  obtain ⟨k, rfl⟩ := hpow
  have hk : k ≤ 8 := by
    by_contra h
    push_neg at h
    have h9 : 2 ^ 9 ≤ 2 ^ k := Nat.pow_le_pow_right (by norm_num) h
    omega
  interval_cases k
  · exact absurd hgt (by norm_num)
  all_goals (revert x; decide)

/-- A list of the padded shape unpads to its message part. -/
lemma unpad_of_shape (N hdr pl : Nat) (R M : List Nat)
    (hgt : 1 < N) (hRlen : R.length = pl) (hpl2 : 2 ≤ pl)
    (hland : Nat.land hdr ((N - 1) % 256) = pl - 2) :
    unpad N (hdr :: (R ++ M ++ List.replicate (N - 1) 0)) = some M := by
  have hlen : (hdr :: (R ++ M ++ List.replicate (N - 1) 0)).length
      = 1 + pl + M.length + (N - 1) := by
    simp only [List.length_cons, List.length_append, List.length_replicate, hRlen]
    omega
  have hPlen : ((hdr :: R) ++ M).length = 1 + pl + M.length := by
    simp only [List.length_append, List.length_cons, hRlen]
    omega
  have hsplit : hdr :: (R ++ M ++ List.replicate (N - 1) 0)
      = ((hdr :: R) ++ M) ++ List.replicate (N - 1) 0 := by
    simp [List.append_assoc]
  have hzero : (List.replicate (N - 1) (0 : Nat)).any (fun v => v != 0) = false := by
    simp [List.any_eq_true, List.mem_replicate]
  unfold unpad
  rw [if_neg (by rw [hlen]; omega)]
  simp only [List.headD_cons, hland]
  rw [if_neg (by rw [hlen]; omega)]
  have hdropidx : (hdr :: (R ++ M ++ List.replicate (N - 1) 0)).length - (N - 1)
      = 1 + pl + M.length := by rw [hlen]; omega
  rw [hdropidx, hsplit, List.drop_left' hPlen, hzero]
  rw [if_neg (by simp)]
  rw [List.take_left' hPlen]
  have hmsg : ((hdr :: R) ++ M).drop (1 + (pl - 2 + 2)) = M := by
    have h1 : 1 + (pl - 2 + 2) = (hdr :: R).length := by
      simp only [List.length_cons, hRlen]; omega
    rw [h1, List.drop_left]
  rw [hmsg]

/-- Inversion of a successful `pad` call: the block size matched, the buffer
was large enough, and the randomness draw succeeded. -/
lemma pad_res_some_inv (N pos bs : Nat) (buf rand out : List Nat)
    (hres : (pad N buf pos bs rand).res = some out) :
    N = bs ∧ totalLen N pos ≤ buf.length ∧ padLen N pos ≤ rand.length := by
  unfold pad at hres
  by_cases h1 : bs ≠ N
  · rw [if_pos h1] at hres; exact absurd hres (by simp)
  · rw [if_neg h1] at hres
    push_neg at h1
    by_cases h2 : buf.length < N * ((pos + 1) / N + 2)
    · simp only [h2, if_true] at hres; exact absurd hres (by simp)
    · simp only [h2, if_false] at hres
      by_cases h3 : rand.length < padLen N pos
      · simp only [h3, if_true] at hres; exact absurd hres (by simp)
      · exact ⟨h1.symm, by unfold totalLen; omega, by omega⟩

/-! ### Claim theorems -/

/-- C1: for every power-of-two block size `N` with `1 < N ≤ 256`, every
message of length `pos` at the start of a buffer of length at least
`N * ((pos + 1) / N + 2)`, and every successful draw from the randomness
source, `pad` followed by `unpad` on the returned padded slice succeeds
and returns the original message `buf.take pos`. -/
theorem pad_unpad_roundtrip (N pos : Nat) (buf rand : List Nat)
    (hpow : ∃ k, N = 2 ^ k) (hgt : 1 < N) (hle : N ≤ 256)
    (hbuf : totalLen N pos ≤ buf.length) (hrand : padLen N pos ≤ rand.length)
    (padded : List Nat) (hres : (pad N buf pos N rand).res = some padded) :
    unpad N padded = some (buf.take pos) := by
  rw [pad_shape N pos buf rand (by omega) hbuf hrand] at hres
  have hp : padded = headerByte N pos ::
      (rand.take (padLen N pos) ++ buf.take pos ++ List.replicate (N - 1) 0) := by
    simpa using hres.symm
  subst hp
  have hplN := padLen_le N pos (by omega)
  have hland : Nat.land (headerByte N pos) ((N - 1) % 256) = padLen N pos - 2 := by
    unfold headerByte
    exact land_header N (padLen N pos - 2) hpow hgt hle (by omega)
  exact unpad_of_shape N (headerByte N pos) (padLen N pos)
    (rand.take (padLen N pos)) (buf.take pos) hgt
    (by rw [List.length_take]; omega) (padLen_ge N pos) hland

/-- Witness for C1 at block size 8, message `"test"`. -/
theorem pad_unpad_roundtrip_witness :
    unpad 8 [250, 9, 8, 7, 6, 116, 101, 115, 116, 0, 0, 0, 0, 0, 0, 0]
      = some [116, 101, 115, 116] := by
  have h := pad_unpad_roundtrip 8 4
    [116, 101, 115, 116, 255, 255, 255, 255, 255, 255, 255, 255, 255, 255, 255, 255]
    [9, 8, 7, 6] ⟨3, rfl⟩ (by decide) (by decide) (by decide) (by decide)
    [250, 9, 8, 7, 6, 116, 101, 115, 116, 0, 0, 0, 0, 0, 0, 0] (by decide)
  simpa using h

/-- Value of the returned slice on a successful `pad` call, together with
the inverted preconditions. -/
lemma pad_res_eq (N pos bs : Nat) (buf rand out : List Nat) (hgt : 1 < N)
    (hres : (pad N buf pos bs rand).res = some out) :
    out = headerByte N pos ::
        (rand.take (padLen N pos) ++ buf.take pos ++ List.replicate (N - 1) 0)
      ∧ N = bs ∧ totalLen N pos ≤ buf.length ∧ padLen N pos ≤ rand.length := by
  obtain ⟨rfl, hbuf, hrand⟩ := pad_res_some_inv N pos bs buf rand out hres
  rw [pad_shape N pos buf rand (by omega) hbuf hrand] at hres
  exact ⟨by simpa using hres.symm, rfl, hbuf, hrand⟩

/-- The padded slice has length `totalLen N pos`. -/
lemma shape_length (N pos : Nat) (buf rand : List Nat) (hgt : 1 < N)
    (hbuf : totalLen N pos ≤ buf.length) (hrand : padLen N pos ≤ rand.length) :
    (headerByte N pos :: (rand.take (padLen N pos) ++ buf.take pos
        ++ List.replicate (N - 1) 0)).length = totalLen N pos := by
  have hbe := totalLen_eq N pos (by omega)
  have hpl2 := padLen_ge N pos
  simp only [List.length_cons, List.length_append, List.length_replicate, List.length_take]
  omega

/-- The original message sits at offset `1 + padLen N pos` of the padded
slice. -/
lemma shape_msg_at_offset (N pos : Nat) (buf rand : List Nat) (hgt : 1 < N)
    (hbuf : totalLen N pos ≤ buf.length) (hrand : padLen N pos ≤ rand.length) :
    ((headerByte N pos :: (rand.take (padLen N pos) ++ buf.take pos
        ++ List.replicate (N - 1) 0)).drop (1 + padLen N pos)).take pos
      = buf.take pos := by
  have hbe := totalLen_eq N pos (by omega)
  have hpl2 := padLen_ge N pos
  have hRlen : (rand.take (padLen N pos)).length = padLen N pos := by
    rw [List.length_take]; omega
  have hMlen : (buf.take pos).length = pos := by
    rw [List.length_take]; omega
  rw [show headerByte N pos :: (rand.take (padLen N pos) ++ buf.take pos
        ++ List.replicate (N - 1) 0)
      = (headerByte N pos :: rand.take (padLen N pos))
        ++ (buf.take pos ++ List.replicate (N - 1) 0) from by simp]
  rw [List.drop_left' (by rw [List.length_cons, hRlen]; omega)]
  rw [List.take_append_of_le_length (by omega)]
  rw [List.take_take]
  simp

/-- C2 counterexample: at block size 2, message `[5]` (`pos = 1`) and
randomness stream `[7, 9, 11]`, the call succeeds with `padLen 2 1 = 3`;
it consumes 3 bytes (the remaining stream is not `drop (padLen - 1)`),
and the byte at offset `1 + (padLen - 1)` is not the message byte, so the
random region is not of length `padLen - 1`. -/
theorem pad_rand_region_counterexample :
    (pad 2 [5, 0, 0, 0, 0, 0] 1 2 [7, 9, 11]).res = some [255, 7, 9, 11, 5, 0]
    ∧ (pad 2 [5, 0, 0, 0, 0, 0] 1 2 [7, 9, 11]).rand ≠ [7, 9, 11].drop (padLen 2 1 - 1)
    ∧ ([255, 7, 9, 11, 5, 0].drop (1 + (padLen 2 1 - 1))).take 1 ≠ [5] := by
  decide

/-- C2 (amended): on every successful `pad` call the region between the
header byte and the relocated message is `rand.take (padLen N pos)`, of
length `padLen N pos` (not `padLen N pos - 1`); the message starts at
offset `1 + padLen N pos`; and exactly `padLen N pos` bytes are consumed
from the randomness source. -/
theorem pad_rand_region (N pos bs : Nat) (buf rand : List Nat) (hgt : 1 < N)
    (out : List Nat) (hres : (pad N buf pos bs rand).res = some out) :
    (out.drop 1).take (padLen N pos) = rand.take (padLen N pos)
    ∧ (rand.take (padLen N pos)).length = padLen N pos
    ∧ (out.drop (1 + padLen N pos)).take pos = buf.take pos
    ∧ (pad N buf pos bs rand).rand = rand.drop (padLen N pos) := by
  obtain ⟨hout, rfl, hbuf, hrand⟩ := pad_res_eq N pos bs buf rand out hgt hres
  have hbe := totalLen_eq N pos (by omega)
  have hpl2 := padLen_ge N pos
  have hRlen : (rand.take (padLen N pos)).length = padLen N pos := by
    rw [List.length_take]; omega
  subst hout
  refine ⟨?_, hRlen, shape_msg_at_offset N pos buf rand hgt hbuf hrand, ?_⟩
  · rw [List.drop_one, List.tail_cons]
    rw [List.take_append_of_le_length (by rw [List.length_append]; omega)]
    rw [List.take_append_of_le_length (by omega)]
    rw [List.take_take]
    simp
  · rw [pad_shape N pos buf rand (by omega) hbuf hrand]

/-- Witness for C2 (amended) at block size 8, message `"test"`. -/
theorem pad_rand_region_witness :
    ([250, 9, 8, 7, 6, 116, 101, 115, 116, 0, 0, 0, 0, 0, 0, 0].drop 1).take (padLen 8 4)
        = [9, 8, 7, 6].take (padLen 8 4)
    ∧ ([9, 8, 7, 6].take (padLen 8 4)).length = padLen 8 4
    ∧ ([250, 9, 8, 7, 6, 116, 101, 115, 116, 0, 0, 0, 0,
        0, 0, 0].drop (1 + padLen 8 4)).take 4
        = [116, 101, 115, 116, 255, 255, 255, 255, 255, 255,
           255, 255, 255, 255, 255, 255].take 4
    ∧ (pad 8 [116, 101, 115, 116, 255, 255, 255, 255, 255, 255, 255, 255,
        255, 255, 255, 255] 4 8 [9, 8, 7, 6]).rand = [9, 8, 7, 6].drop (padLen 8 4) :=
  pad_rand_region 8 4 8
    [116, 101, 115, 116, 255, 255, 255, 255, 255, 255, 255, 255, 255, 255, 255, 255]
    [9, 8, 7, 6] (by decide)
    [250, 9, 8, 7, 6, 116, 101, 115, 116, 0, 0, 0, 0, 0, 0, 0] (by decide)

/-- C3: on every successful `pad` call the returned slice has length
`N * ((pos + 1) / N + 2)`, which is a multiple of `N` and at least
`pos + N + 1`. -/
theorem pad_length_law (N pos bs : Nat) (buf rand : List Nat) (hgt : 1 < N)
    (out : List Nat) (hres : (pad N buf pos bs rand).res = some out) :
    out.length = N * ((pos + 1) / N + 2)
    ∧ N ∣ out.length ∧ pos + N + 1 ≤ out.length := by
  obtain ⟨hout, rfl, hbuf, hrand⟩ := pad_res_eq N pos bs buf rand out hgt hres
  subst hout
  rw [shape_length N pos buf rand hgt hbuf hrand]
  refine ⟨rfl, ⟨(pos + 1) / N + 2, rfl⟩, ?_⟩
  have := totalLen_lower N pos (by omega)
  omega

/-- Witness for C3 at block size 8, message `"test"`. -/
theorem pad_length_law_witness :
    [250, 9, 8, 7, 6, 116, 101, 115, 116, 0, 0, 0, 0, 0, 0, 0].length
        = 8 * ((4 + 1) / 8 + 2)
    ∧ 8 ∣ [250, 9, 8, 7, 6, 116, 101, 115, 116, 0, 0, 0, 0, 0, 0, 0].length
    ∧ 4 + 8 + 1 ≤ [250, 9, 8, 7, 6, 116, 101, 115, 116, 0, 0, 0, 0, 0, 0, 0].length :=
  pad_length_law 8 4 8
    [116, 101, 115, 116, 255, 255, 255, 255, 255, 255, 255, 255, 255, 255, 255, 255]
    [9, 8, 7, 6] (by decide)
    [250, 9, 8, 7, 6, 116, 101, 115, 116, 0, 0, 0, 0, 0, 0, 0] (by decide)

/-- C7: on every successful `pad` call the last `N - 1` bytes of the
returned padded slice are all zero. -/
theorem pad_tail_law (N pos bs : Nat) (buf rand : List Nat) (hgt : 1 < N)
    (out : List Nat) (hres : (pad N buf pos bs rand).res = some out) :
    out.drop (out.length - (N - 1)) = List.replicate (N - 1) 0 := by
  obtain ⟨hout, rfl, hbuf, hrand⟩ := pad_res_eq N pos bs buf rand out hgt hres
  have hbe := totalLen_eq N pos (by omega)
  have hpl2 := padLen_ge N pos
  have hRlen : (rand.take (padLen N pos)).length = padLen N pos := by
    rw [List.length_take]; omega
  have hMlen : (buf.take pos).length = pos := by
    rw [List.length_take]; omega
  subst hout
  rw [shape_length N pos buf rand hgt hbuf hrand]
  have hP : ((headerByte N pos :: rand.take (padLen N pos)) ++ buf.take pos).length
      = totalLen N pos - (N - 1) := by
    simp only [List.length_append, List.length_cons, hRlen, hMlen]
    omega
  rw [show headerByte N pos :: (rand.take (padLen N pos) ++ buf.take pos
        ++ List.replicate (N - 1) 0)
      = ((headerByte N pos :: rand.take (padLen N pos)) ++ buf.take pos)
        ++ List.replicate (N - 1) 0 from by simp]
  exact List.drop_left' hP

/-- Witness for C7 at block size 8, message `"test"`. -/
theorem pad_tail_law_witness :
    [250, 9, 8, 7, 6, 116, 101, 115, 116, 0, 0, 0, 0, 0, 0, 0].drop
        ([250, 9, 8, 7, 6, 116, 101, 115, 116, 0, 0, 0, 0, 0, 0, 0].length - (8 - 1))
      = List.replicate (8 - 1) 0 :=
  pad_tail_law 8 4 8
    [116, 101, 115, 116, 255, 255, 255, 255, 255, 255, 255, 255, 255, 255, 255, 255]
    [9, 8, 7, 6] (by decide)
    [250, 9, 8, 7, 6, 116, 101, 115, 116, 0, 0, 0, 0, 0, 0, 0] (by decide)

/-- C9: a successful `pad` call mutates only the first
`N * ((pos + 1) / N + 2)` bytes of the buffer; every byte at or beyond
that index keeps its prior value. -/
theorem pad_frame (N pos bs : Nat) (buf rand : List Nat) (hgt : 1 < N)
    (out : List Nat) (hres : (pad N buf pos bs rand).res = some out) :
    (pad N buf pos bs rand).buf.drop (N * ((pos + 1) / N + 2))
      = buf.drop (N * ((pos + 1) / N + 2)) := by
  obtain ⟨rfl, hbuf, hrand⟩ := pad_res_some_inv N pos bs buf rand out hres
  rw [pad_shape N pos buf rand (by omega) hbuf hrand]
  rw [show N * ((pos + 1) / N + 2) = totalLen N pos from rfl]
  exact List.drop_left' (shape_length N pos buf rand hgt hbuf hrand)

/-- Witness for C9 at block size 8, message `"test"`, buffer one byte
longer than required. -/
theorem pad_frame_witness :
    (pad 8 [116, 101, 115, 116, 255, 255, 255, 255, 255, 255, 255, 255, 255,
        255, 255, 255, 77] 4 8 [9, 8, 7, 6]).buf.drop (8 * ((4 + 1) / 8 + 2))
      = [116, 101, 115, 116, 255, 255, 255, 255, 255, 255, 255, 255, 255,
          255, 255, 255, 77].drop (8 * ((4 + 1) / 8 + 2)) :=
  pad_frame 8 4 8
    [116, 101, 115, 116, 255, 255, 255, 255, 255, 255, 255, 255, 255, 255, 255, 255, 77]
    [9, 8, 7, 6] (by decide)
    [250, 9, 8, 7, 6, 116, 101, 115, 116, 0, 0, 0, 0, 0, 0, 0] (by decide)

/-- C4: on every successful `pad` call byte 0 of the output is
`(bitwise-not (N - 1)) | (padLen - 2)`; its low bits decode back to
`padLen` via `(byte0 & (N - 1)) + 2`; and the original message begins at
byte offset `1 + padLen`. -/
theorem pad_header_law (N pos bs : Nat) (buf rand : List Nat)
    (hpow : ∃ k, N = 2 ^ k) (hgt : 1 < N) (hle : N ≤ 256)
    (out : List Nat) (hres : (pad N buf pos bs rand).res = some out) :
    out.headD 0 = Nat.lor (not8 (N - 1)) (padLen N pos - 2)
    ∧ Nat.land (out.headD 0) (N - 1) + 2 = padLen N pos
    ∧ (out.drop (1 + padLen N pos)).take pos = buf.take pos := by
  obtain ⟨hout, rfl, hbuf, hrand⟩ := pad_res_eq N pos bs buf rand out hgt hres
  have hplN := padLen_le N pos (by omega)
  have hpl2 := padLen_ge N pos
  have hmodp : (padLen N pos - 2) % 256 = padLen N pos - 2 := Nat.mod_eq_of_lt (by omega)
  have hmask : (N - 1) % 256 = N - 1 := Nat.mod_eq_of_lt (by omega)
  have hdec := land_header N (padLen N pos - 2) hpow hgt hle (by omega)
  rw [hmask] at hdec
  subst hout
  simp only [List.headD_cons]
  refine ⟨?_, ?_, shape_msg_at_offset N pos buf rand hgt hbuf hrand⟩
  · unfold headerByte
    rw [hmodp]
  · unfold headerByte
    rw [hdec]
    omega

/-- Witness for C4 at block size 8, message `"test"`. -/
theorem pad_header_law_witness :
    [250, 9, 8, 7, 6, 116, 101, 115, 116, 0, 0, 0, 0, 0, 0, 0].headD 0
        = Nat.lor (not8 (8 - 1)) (padLen 8 4 - 2)
    ∧ Nat.land ([250, 9, 8, 7, 6, 116, 101, 115, 116, 0, 0, 0, 0, 0, 0, 0].headD 0)
        (8 - 1) + 2 = padLen 8 4
    ∧ ([250, 9, 8, 7, 6, 116, 101, 115, 116, 0, 0, 0, 0,
        0, 0, 0].drop (1 + padLen 8 4)).take 4
        = [116, 101, 115, 116, 255, 255, 255, 255, 255, 255,
           255, 255, 255, 255, 255, 255].take 4 :=
  pad_header_law 8 4 8
    [116, 101, 115, 116, 255, 255, 255, 255, 255, 255, 255, 255, 255, 255, 255, 255]
    [9, 8, 7, 6] ⟨3, rfl⟩ (by decide) (by decide)
    [250, 9, 8, 7, 6, 116, 101, 115, 116, 0, 0, 0, 0, 0, 0, 0] (by decide)

/-- C6: `pad` fails with the buffer and randomness stream untouched when
the passed block size differs from `N` or the buffer is shorter than the
computed padded length (validation before any mutation); the only failure
after the message bytes have been shifted is the randomness-source
failure, which leaves the buffer in the shifted state. -/
theorem pad_validation (N pos bs : Nat) (buf rand : List Nat) :
    (bs ≠ N → pad N buf pos bs rand = ⟨none, buf, rand⟩)
    ∧ (buf.length < N * ((pos + 1) / N + 2) →
        pad N buf pos bs rand = ⟨none, buf, rand⟩)
    ∧ (bs = N → N * ((pos + 1) / N + 2) ≤ buf.length →
        rand.length < padLen N pos →
        pad N buf pos bs rand
          = ⟨none, writeRange buf (1 + padLen N pos) (buf.take pos), rand⟩) := by
  refine ⟨?_, ?_, ?_⟩
  · intro h
    unfold pad
    rw [if_pos h]
  · intro h
    unfold pad
    by_cases h1 : bs ≠ N
    · rw [if_pos h1]
    · rw [if_neg h1]
      simp only [h, if_true]
  · intro h1 h2 h3
    rw [h1]
    unfold pad
    rw [if_neg (fun h => h rfl)]
    have hc : ¬ (buf.length < N * ((pos + 1) / N + 2)) := not_lt.mpr h2
    simp only [hc, if_false]
    simp only [h3, if_true]

/-- Witness for C6: block-size mismatch, undersized buffer, and a
randomness failure after the shift, each at a concrete input. -/
theorem pad_validation_witness :
    pad 8 [1, 2, 3, 0, 0, 0, 0, 0, 0, 0, 0, 0, 0, 0, 0, 0] 3 4 [9, 9, 9, 9, 9, 9, 9]
        = ⟨none, [1, 2, 3, 0, 0, 0, 0, 0, 0, 0, 0, 0, 0, 0, 0, 0], [9, 9, 9, 9, 9, 9, 9]⟩
    ∧ pad 8 [1, 2, 3, 0, 0, 0, 0, 0, 0, 0, 0, 0, 0, 0, 0] 3 8 [9, 9, 9, 9, 9, 9, 9]
        = ⟨none, [1, 2, 3, 0, 0, 0, 0, 0, 0, 0, 0, 0, 0, 0, 0], [9, 9, 9, 9, 9, 9, 9]⟩
    ∧ pad 2 [1, 2, 0, 0, 0, 0, 0, 0] 2 2 [7]
        = ⟨none, writeRange [1, 2, 0, 0, 0, 0, 0, 0] (1 + padLen 2 2)
            ([1, 2, 0, 0, 0, 0, 0, 0].take 2), [7]⟩ :=
  ⟨(pad_validation 8 3 4 [1, 2, 3, 0, 0, 0, 0, 0, 0, 0, 0, 0, 0, 0, 0, 0]
      [9, 9, 9, 9, 9, 9, 9]).1 (by decide),
   (pad_validation 8 3 8 [1, 2, 3, 0, 0, 0, 0, 0, 0, 0, 0, 0, 0, 0, 0]
      [9, 9, 9, 9, 9, 9, 9]).2.1 (by decide),
   (pad_validation 2 2 2 [1, 2, 0, 0, 0, 0, 0, 0] [7]).2.2 rfl (by decide) (by decide)⟩

/-- C5: for a valid block size `N`, `unpad` fails exactly when the input
is empty, or shorter than the decoded `pad_len + N`, or has a non-zero
byte among its trailing `N - 1` bytes; otherwise it returns the sub-slice
between offset `1 + pad_len` and the trailing zeros. -/
theorem unpad_raises_iff (N : Nat) (data : List Nat) (hgt : 1 < N) (hle : N ≤ 256) :
    (unpad N data = none ↔
      data = [] ∨ data.length < decodedPadLen N data + N
        ∨ (data.drop (data.length - (N - 1))).any (fun v => v != 0) = true)
    ∧ (¬ (data = [] ∨ data.length < decodedPadLen N data + N
          ∨ (data.drop (data.length - (N - 1))).any (fun v => v != 0) = true) →
        unpad N data
          = some ((data.take (data.length - (N - 1))).drop (1 + decodedPadLen N data))) := by
  have hmask : (N - 1) % 256 = N - 1 := Nat.mod_eq_of_lt (by omega)
  unfold unpad decodedPadLen
  simp only [hmask]
  by_cases h0 : data.length = 0
  · rw [if_pos h0]
    have hnil : data = [] := List.length_eq_zero.mp h0
    refine ⟨?_, ?_⟩
    · exact iff_of_true rfl (Or.inl hnil)
    · intro h
      exact absurd (Or.inl hnil) h
  · rw [if_neg h0]
    have hne : data ≠ [] := fun h => h0 (by rw [h]; rfl)
    by_cases hlen : data.length < Nat.land (data.headD 0) (N - 1) + 2 + N
    · rw [if_pos hlen]
      refine ⟨?_, ?_⟩
      · exact iff_of_true rfl (Or.inr (Or.inl hlen))
      · intro h
        exact absurd (Or.inr (Or.inl hlen)) h
    · rw [if_neg hlen]
      by_cases hany : (data.drop (data.length - (N - 1))).any (fun v => v != 0) = true
      · rw [if_pos hany]
        refine ⟨?_, ?_⟩
        · exact iff_of_true rfl (Or.inr (Or.inr hany))
        · intro h
          exact absurd (Or.inr (Or.inr hany)) h
      · rw [if_neg hany]
        have hRfalse : ¬ (data = [] ∨ data.length < Nat.land (data.headD 0) (N - 1) + 2 + N
            ∨ (data.drop (data.length - (N - 1))).any (fun v => v != 0) = true) := by
          rintro (h | h | h)
          · exact hne h
          · exact hlen h
          · exact hany h
        refine ⟨?_, ?_⟩
        · exact iff_of_false (by simp) hRfalse
        · intro _
          rfl

/-- Witness for C5 at block size 8 on the too-short input `[248, 0, 0]`. -/
theorem unpad_raises_iff_witness :
    (unpad 8 [248, 0, 0] = none ↔
      [248, 0, 0] = ([] : List Nat)
        ∨ [248, 0, 0].length < decodedPadLen 8 [248, 0, 0] + 8
        ∨ ([248, 0, 0].drop ([248, 0, 0].length - (8 - 1))).any (fun v => v != 0) = true)
    ∧ (¬ ([248, 0, 0] = ([] : List Nat)
          ∨ [248, 0, 0].length < decodedPadLen 8 [248, 0, 0] + 8
          ∨ ([248, 0, 0].drop ([248, 0, 0].length - (8 - 1))).any
              (fun v => v != 0) = true) →
        unpad 8 [248, 0, 0]
          = some (([248, 0, 0].take ([248, 0, 0].length - (8 - 1))).drop
              (1 + decodedPadLen 8 [248, 0, 0]))) :=
  unpad_raises_iff 8 [248, 0, 0] (by decide) (by decide)

/-- C8: `unpad` never inspects the high marker bits of byte 0: two inputs
of equal length that agree on the tail and on the low bits of byte 0
unpad identically, so byte strings never produced by `pad` can still
unpad successfully. -/
theorem unpad_marker_insensitive (N b1 b2 : Nat) (t : List Nat)
    (hland : Nat.land b1 ((N - 1) % 256) = Nat.land b2 ((N - 1) % 256)) :
    unpad N (b1 :: t) = unpad N (b2 :: t) := by
  unfold unpad
  simp only [List.headD_cons, List.length_cons, hland]
  by_cases hlen : t.length + 1 < Nat.land b2 ((N - 1) % 256) + 2 + N
  · rw [if_neg (by omega : ¬(t.length + 1 = 0)),
      if_neg (by omega : ¬(t.length + 1 = 0)), if_pos hlen, if_pos hlen]
  · rw [if_neg (by omega : ¬(t.length + 1 = 0)),
      if_neg (by omega : ¬(t.length + 1 = 0)), if_neg hlen, if_neg hlen]
    obtain ⟨j, hj⟩ : ∃ j, t.length + 1 - (N - 1) = j + 1 :=
      ⟨t.length - (N - 1), by omega⟩
    rw [hj, List.drop_succ_cons, List.drop_succ_cons,
      List.take_succ_cons, List.take_succ_cons]
    rw [show 1 + (Nat.land b2 ((N - 1) % 256) + 2)
        = (Nat.land b2 ((N - 1) % 256) + 2) + 1 from by omega]
    rw [List.drop_succ_cons, List.drop_succ_cons]

/-- Witness for C8 at block size 8: byte 0 equal to `0xF8` (as produced by
`pad`) and byte 0 equal to `0x00` (never produced by `pad`) give the same
successful result. -/
theorem unpad_marker_insensitive_witness :
    unpad 8 (248 :: [0, 0, 0, 0, 0, 0, 0, 0, 0]) = unpad 8 (0 :: [0, 0, 0, 0, 0, 0, 0, 0, 0]) :=
  unpad_marker_insensitive 8 248 0 [0, 0, 0, 0, 0, 0, 0, 0, 0] (by decide)

/-- C10: for every valid block size and every input, the guarded run of
`unpad` never panics: it returns exactly `err` where `unpad` fails and
`ok` with the same slice where `unpad` succeeds, so every index and slice
access is in bounds. -/
theorem unpadChecked_no_panic (N : Nat) (data : List Nat) (hgt : 1 < N) :
    unpadChecked N data = (match unpad N data with
      | none => UnpadOutcome.err
      | some s => UnpadOutcome.ok s) := by
  unfold unpadChecked unpad
  by_cases h0 : data.length = 0
  · rw [if_pos h0, if_pos h0]
  · rw [if_neg h0, if_neg h0]
    obtain ⟨b, t, rfl⟩ : ∃ b t, data = b :: t := by
      cases data with
      | nil => simp at h0
      | cons b t => exact ⟨b, t, rfl⟩
    simp only [List.get?_cons_zero, List.headD_cons, List.length_cons]
    by_cases hlen : t.length + 1 < Nat.land b ((N - 1) % 256) + 2 + N
    · rw [if_pos hlen, if_pos hlen]
    · rw [if_neg hlen, if_neg hlen]
      rw [if_neg (show ¬(N - 1 > t.length + 1) by omega)]
      by_cases hany : ((b :: t).drop (t.length + 1 - (N - 1))).any (fun v => v != 0) = true
      · rw [if_pos hany, if_pos hany]
      · rw [if_neg hany, if_neg hany]
        rw [if_neg (show ¬(1 + (Nat.land b ((N - 1) % 256) + 2)
            > t.length + 1 - (N - 1)) by omega)]

/-- Witness for C10 at block size 8 on a well-formed input. -/
theorem unpadChecked_no_panic_witness :
    unpadChecked 8 [248, 0, 0, 0, 0, 0, 0, 0, 0, 0, 0, 0, 0, 0, 0, 0]
      = (match unpad 8 [248, 0, 0, 0, 0, 0, 0, 0, 0, 0, 0, 0, 0, 0, 0, 0] with
          | none => UnpadOutcome.err
          | some s => UnpadOutcome.ok s) :=
  unpadChecked_no_panic 8 [248, 0, 0, 0, 0, 0, 0, 0, 0, 0, 0, 0, 0, 0, 0, 0] (by decide)
